import Mathlib

/-!
Shallow embedding of the grammar compiler in `src/scripts/build-grammar.mjs`
(the repository's only executable source file), together with a small
semantics for the JavaScript regular-expression constructs the generated
patterns use (word characters, word boundaries `\b`, alternation `|`,
non-capturing groups `(?: )`, lookahead `(?= )`, `\s*`, literal words).

Conventions of the embedding:
  * JSON objects are modelled as association lists in key-insertion order
    (JavaScript `Object.values` iterates string keys in insertion order).
  * A JavaScript value that may be `undefined` is an `Option`.
  * A thrown exception is an `Except.error` carrying the message.
-/

namespace Cookbook

/-- Embeds `words.join('|')`: the words concatenated with `|` between
consecutive ones. -/
def joinBar : List String → String
  | [] => ""
  | [w] => w
  | w :: ws => w ++ "|" ++ joinBar ws

/-- Embeds `createWordPattern(words)` (build-grammar.mjs lines 16-19):
returns the empty string for a missing/empty list, otherwise the string
`\b(?:` ++ the words joined by `|` ++ `)\b`, with no escaping of the words. -/
def createWordPattern : List String → String
  | [] => ""
  | w :: ws => "\\b(?:" ++ joinBar (w :: ws) ++ ")\\b"

/-- A node of the nested taxonomy: either a flat JSON array of strings or a
JSON object whose values are further nodes, kept in key-insertion order.
This is the shape `flattenArray` is applied to. -/
inductive Node where
  | arr (elems : List String)
  | obj (fields : List (String × Node))
deriving Repr

mutual

/-- Embeds `flattenArray(obj)` (build-grammar.mjs lines 22-34): an array is
returned unchanged; for an object, every value is flattened and the results
are concatenated in iteration order (keys discarded). -/
def flattenArray : Node → List String
  | .arr xs => xs
  | .obj fs => flattenFields fs

/-- The `Object.values(obj).forEach` loop of `flattenArray`, concatenating
the flattening of each field value in iteration order. -/
def flattenFields : List (String × Node) → List String
  | [] => []
  | (_, v) :: rest => flattenArray v ++ flattenFields rest

end

/-- Embeds the application `flattenArray(tokens.types)` / `flattenArray(tokens.actions)`
where the field may be absent: in JavaScript the argument is then `undefined`,
`Array.isArray(undefined)` is `false`, and `Object.values(undefined)` throws
`TypeError: Cannot convert undefined or null to object`. -/
def flattenArrayJS : Option Node → Except String (List String)
  | none => .error "TypeError: Cannot convert undefined or null to object"
  | some n => .ok (flattenArray n)

/-- The `keywords` object of the taxonomy, with the two category fields the
generator reads via `tokens.keywords?.declaration` / `?.control`. -/
structure KeywordCats where
  declaration : Option (List String)
  control : Option (List String)
deriving Repr

/-- The taxonomy document `tokens.json` as the generator reads it: each of
the four top-level categories may be absent. -/
structure Taxonomy where
  keywords : Option KeywordCats
  types : Option Node
  builtins : Option (List String)
  actions : Option Node
deriving Repr

/-- One entry of a TextMate rule list: an `include` reference, a `match`
rule, or a `begin`/`end` rule with optional begin-captures and sub-patterns. -/
inductive GPattern where
  | includeRef (ref : String)
  | matchRule (name : String) (pat : String)
  | beginEndRule (name : String) (beginPat : String) (endPat : String)
      (beginCaptures : List (Nat × String)) (patterns : List GPattern)
deriving Repr

/-- The generated grammar object (build-grammar.mjs lines 53-164): metadata,
the ordered top-level `patterns` list, and the `repository` mapping each rule
name to its list of pattern entries, in declaration order. -/
structure Grammar where
  name : String
  scopeName : String
  fileTypes : List String
  patterns : List GPattern
  repository : List (String × List GPattern)
deriving Repr

/-- Looks a rule name up in a grammar's repository. -/
def repoLookup (g : Grammar) (k : String) : Option (List GPattern) :=
  (g.repository.find? (fun p => p.1 == k)).map (fun p => p.2)

/-- Embeds `makeGrammar(tokens)` (build-grammar.mjs lines 36-167).  The two
`flattenArray` applications on possibly-absent fields are the only failure
points; `tokens.types` is flattened before `tokens.builtins` is read and
`tokens.actions` flattened, matching JavaScript evaluation order.  All
pattern strings are built exactly as in the source. -/
def makeGrammar (tokens : Taxonomy) : Except String Grammar :=
  let declKeywords := createWordPattern
    ((tokens.keywords.bind (fun k => k.declaration)).getD [])
  let controlKeywords := createWordPattern
    ((tokens.keywords.bind (fun k => k.control)).getD [])
  match flattenArrayJS tokens.types with
  | .error e => .error e
  | .ok allTypes =>
    let typesPattern := createWordPattern allTypes
    let builtinsPattern := createWordPattern (tokens.builtins.getD [])
    match flattenArrayJS tokens.actions with
    | .error e => .error e
    | .ok allActions =>
      let actionsPattern := createWordPattern allActions
      .ok
        { name := "food"
          scopeName := "source.food"
          fileTypes := ["food"]
          patterns :=
            [ .includeRef "#comments"
            , .includeRef "#strings"
            , .includeRef "#keywords"
            , .includeRef "#types"
            , .includeRef "#builtins"
            , .includeRef "#actions"
            , .includeRef "#functions"
            , .includeRef "#variables" ]
          repository :=
            [ ("comments",
                [ .matchRule "comment.line.double-slash.food" "//.*$"
                , .beginEndRule "comment.block.food" "/\\*" "\\*/" []
                    [ .includeRef "#comments" ] ])
            , ("strings",
                [ .beginEndRule "string.quoted.double.food" "\"" "\"" []
                    [ .matchRule "constant.character.escape.food" "\\\\." ] ])
            , ("keywords",
                [ .matchRule "keyword.declaration.food" declKeywords
                , .matchRule "keyword.control.food" controlKeywords ])
            , ("types",
                [ .matchRule "support.class.food" typesPattern ])
            , ("builtins",
                [ .matchRule "support.function.builtin.food"
                    (builtinsPattern ++ "(?=\\s*\\()") ])
            , ("actions",
                [ .matchRule "support.function.method.food"
                    ("\\." ++ actionsPattern ++ "(?=\\s*\\()") ])
            , ("functions",
                [ .beginEndRule "meta.function.food"
                    "\\b(fn)\\b\\s+([A-Za-z_][\\w]*)\\s*(?=\\()" "(?=\\()"
                    [ (1, "keyword.declaration.food")
                    , (2, "entity.name.function.food") ] []
                , .matchRule "entity.name.function.food"
                    "\\b([A-Za-z_][\\w]*)\\b(?=\\s*\\()" ])
            , ("variables",
                [ .matchRule "variable.other.property.food"
                    "\\.(?:[A-Za-z_][\\w]*)"
                , .matchRule "variable.other.food"
                    "\\b[a-z_][A-Za-z0-9_]*\\b" ]) ] }

/-! ### Orchestration (build-grammar.mjs lines 169-201)

`main()` reads the taxonomy, synthesizes the grammar and writes it out; we
model one run of `main` as a function of the loader's outcome (a parse of the
taxonomy file, or a thrown parse/read error). -/

/-- One run of `main()` (lines 169-177): propagate a loader failure, then
synthesize.  (The artifact write is I/O and not modelled further.) -/
def mainResult (load : Except String Taxonomy) : Except String Grammar :=
  match load with
  | .error e => .error e
  | .ok tokens => makeGrammar tokens

/-- Outcome of one `fs.watch` callback invocation in watch mode. -/
inductive WatchOutcome where
  | rebuilt
  | loggedError (msg : String)
  | noAction
deriving Repr, DecidableEq

/-- Outcome of watch-mode startup (lines 182-198): the initial `main()` at
line 186 runs outside any `try`/`catch`. -/
inductive StartOutcome where
  | watching
  | crashed (msg : String)
deriving Repr, DecidableEq

/-- Outcome of a one-shot run (line 200): an uncaught exception from `main()`
terminates the Node process with a non-zero exit status. -/
inductive ShotOutcome where
  | built
  | exitNonZero (msg : String)
deriving Repr, DecidableEq

/-- Embeds the `fs.watch` callback (lines 189-198): on a `change` event it
re-runs `main()` inside `try { ... } catch (error) { console.error(...) }`,
so a failing rebuild is logged and the callback returns normally (the watch
loop keeps running); on any other event type nothing is done. -/
def watchChangeStep (load : Except String Taxonomy) (eventType : String) :
    WatchOutcome :=
  if eventType = "change" then
    match mainResult load with
    | .ok _ => .rebuilt
    | .error e => .loggedError e
  else .noAction

/-- Embeds watch-mode startup (lines 182-198): the initial `main()` at line
186 is not wrapped in any handler, so a failure there propagates and the
process terminates before the watcher is installed. -/
def watchStartup (load : Except String Taxonomy) : StartOutcome :=
  match mainResult load with
  | .ok _ => .watching
  | .error e => .crashed e

/-- Embeds the one-shot branch (lines 199-201): a bare `main()`, whose
failure is an uncaught exception and hence a non-zero process exit. -/
def oneShotRun (load : Except String Taxonomy) : ShotOutcome :=
  match mainResult load with
  | .ok _ => .built
  | .error e => .exitNonZero e

/-! ### Semantics of the generated JavaScript regular expressions

The generated `match` patterns use only: literal words, `|` alternation
inside a non-capturing group `(?: )`, the word-boundary assertion `\b`, the
lookahead `(?= )`, the whitespace repetition `\s*`, and escaped literal
characters.  We give these constructs their JavaScript backtracking
semantics: matching a regex at a position yields the list of possible end
positions in backtracking priority order (alternatives left to right, `\s*`
greedy), and the engine's match at a position is the head of that list. -/

/-- JavaScript `\w`: ASCII letters, digits and underscore. -/
def isWordChar (c : Char) : Bool :=
  ('a' ≤ c && c ≤ 'z') || ('A' ≤ c && c ≤ 'Z') || ('0' ≤ c && c ≤ '9') || c == '_'

/-- JavaScript `\s` restricted to the ASCII whitespace characters. -/
def isSpaceChar (c : Char) : Bool :=
  c == ' ' || c == '\t' || c == '\n' || c == '\r' || c == '\x0b' || c == '\x0c'

/-- Whether the character at index `k` exists and is a word character. -/
def isWordAt (t : List Char) (k : Nat) : Bool :=
  match t[k]? with
  | some c => isWordChar c
  | none => false

/-- JavaScript `\b` at position `i`: exactly one of the character before `i`
and the character at `i` is a word character (out of range counts as
non-word). -/
def wordBoundaryB (t : List Char) (i : Nat) : Bool :=
  ((i != 0) && isWordAt t (i - 1)) != isWordAt t i

/-- The literal word `s` occurs in `t` starting at index `i`. -/
def litAt (t : List Char) (s : String) (i : Nat) : Bool :=
  (t.drop i).take s.data.length == s.data

/-- Length of the whitespace run in `t` starting at index `i`. -/
def wsCountFrom (t : List Char) (i : Nat) : Nat :=
  ((t.drop i).takeWhile isSpaceChar).length

/-- Possible end positions of greedy `\s*` started at `i`: the whole
whitespace run first, then shorter prefixes down to the empty match. -/
def wsEnds (t : List Char) (i : Nat) : List Nat :=
  (List.range (wsCountFrom t i + 1)).map (fun k => i + wsCountFrom t i - k)

/-- Abstract syntax of the regex fragment the generator emits. -/
inductive Regex where
  | lit (s : String)
  | chr (c : Char)
  | alt (r1 r2 : Regex)
  | seq (r1 r2 : Regex)
  | group (r : Regex)
  | look (r : Regex)
  | wb
  | wsStar
deriving Repr

/-- Backtracking matcher: the end positions at which `r`, started at `i` in
`t`, can match, in priority order (a JavaScript engine commits to the head). -/
def matchEnds (t : List Char) : Regex → Nat → List Nat
  | .lit s, i => if litAt t s i then [i + s.data.length] else []
  | .chr c, i => if t[i]? == some c then [i + 1] else []
  | .alt r1 r2, i => matchEnds t r1 i ++ matchEnds t r2 i
  | .seq r1 r2, i => (matchEnds t r1 i).flatMap (fun j => matchEnds t r2 j)
  | .group r, i => matchEnds t r i
  | .look r, i => if (matchEnds t r i).isEmpty then [] else [i]
  | .wb, i => if wordBoundaryB t i then [i] else []
  | .wsStar, i => wsEnds t i

/-- Source text of one regex character, escaped when it is a metacharacter
(only `(` is used escaped by the generator). -/
def renderChar (c : Char) : String :=
  if isWordChar c then String.mk [c] else "\\" ++ String.mk [c]

/-- Source text of a regex value, matching the strings the generator builds. -/
def render : Regex → String
  | .lit s => s
  | .chr c => renderChar c
  | .alt r1 r2 => render r1 ++ "|" ++ render r2
  | .seq r1 r2 => render r1 ++ render r2
  | .group r => "(?:" ++ render r ++ ")"
  | .look r => "(?=" ++ render r ++ ")"
  | .wb => "\\b"
  | .wsStar => "\\s*"

/-- Left-to-right alternation of a head regex and further alternatives. -/
def altOfList : Regex → List Regex → Regex
  | r, [] => r
  | r, s :: rest => .alt r (altOfList s rest)

/-- The regex denoted by `createWordPattern (w :: ws)`:
word boundary, alternation of the words in a non-capturing group, word
boundary. -/
def wordAltRegex (w : String) (ws : List String) : Regex :=
  .seq .wb (.seq (.group (altOfList (.lit w) (ws.map Regex.lit))) .wb)

/-- The regex denoted by the generated builtins rule for a non-empty
builtins list: the word pattern followed by the lookahead `(?=\s*\()`. -/
def builtinRegex (w : String) (ws : List String) : Regex :=
  .seq (wordAltRegex w ws) (.look (.seq .wsStar (.chr '(')))

/-- Whether the character at index `m` exists and is whitespace. -/
def spaceAt (t : List Char) (m : Nat) : Bool :=
  match t[m]? with
  | some c => isSpaceChar c
  | none => false

mutual

/-- Specification-side description of a taxonomy node: the list of its leaf
string-arrays in traversal order, keys discarded. -/
def leaves : Node → List (List String)
  | .arr xs => [xs]
  | .obj fs => leavesFields fs

/-- Leaf arrays of a field list, in iteration order. -/
def leavesFields : List (String × Node) → List (List String)
  | [] => []
  | (_, v) :: rest => leaves v ++ leavesFields rest

end

/-- A taxonomy whose categories are all present but empty (the builtins list
is empty): `types` and `actions` are empty objects so synthesis succeeds. -/
def taxEmptyCats : Taxonomy :=
  { keywords := none, types := some (.obj []), builtins := some []
    actions := some (.obj []) }

/-- The grammar synthesized from `taxEmptyCats` (total projection of the
successful result). -/
def grammarEmptyCats : Grammar :=
  ((makeGrammar taxEmptyCats).toOption).getD
    { name := "", scopeName := "", fileTypes := [], patterns := []
      repository := [] }

/-- A taxonomy whose only non-empty category is the builtins list `["wait"]`. -/
def taxWaitBuiltin : Taxonomy :=
  { keywords := none, types := some (.obj []), builtins := some ["wait"]
    actions := some (.obj []) }

/-- The grammar synthesized from `taxWaitBuiltin`. -/
def grammarWaitBuiltin : Grammar :=
  ((makeGrammar taxWaitBuiltin).toOption).getD
    { name := "", scopeName := "", fileTypes := [], patterns := []
      repository := [] }

/-! ### Characterization lemmas for the matcher -/

theorem mem_matchEnds_lit {t : List Char} {s : String} {i j : Nat} :
    j ∈ matchEnds t (.lit s) i ↔ litAt t s i = true ∧ j = i + s.data.length := by
  simp only [matchEnds]
  split <;> simp_all

theorem mem_matchEnds_chr {t : List Char} {c : Char} {i j : Nat} :
    j ∈ matchEnds t (.chr c) i ↔ t[i]? = some c ∧ j = i + 1 := by
  simp only [matchEnds]
  split <;> simp_all

theorem mem_matchEnds_alt {t : List Char} {r1 r2 : Regex} {i j : Nat} :
    j ∈ matchEnds t (.alt r1 r2) i ↔
      j ∈ matchEnds t r1 i ∨ j ∈ matchEnds t r2 i := by
  simp [matchEnds]

theorem mem_matchEnds_seq {t : List Char} {r1 r2 : Regex} {i j : Nat} :
    j ∈ matchEnds t (.seq r1 r2) i ↔
      ∃ k, k ∈ matchEnds t r1 i ∧ j ∈ matchEnds t r2 k := by
  simp [matchEnds, List.mem_flatMap]

theorem mem_matchEnds_group {t : List Char} {r : Regex} {i j : Nat} :
    j ∈ matchEnds t (.group r) i ↔ j ∈ matchEnds t r i := by
  simp [matchEnds]

theorem mem_matchEnds_look {t : List Char} {r : Regex} {i j : Nat} :
    j ∈ matchEnds t (.look r) i ↔ j = i ∧ matchEnds t r i ≠ [] := by
  simp only [matchEnds]
  split <;> simp_all [List.isEmpty_iff]

theorem mem_matchEnds_wb {t : List Char} {i j : Nat} :
    j ∈ matchEnds t .wb i ↔ j = i ∧ wordBoundaryB t i = true := by
  simp only [matchEnds]
  split <;> simp_all

theorem mem_matchEnds_wsStar {t : List Char} {i j : Nat} :
    j ∈ matchEnds t .wsStar i ↔ i ≤ j ∧ j ≤ i + wsCountFrom t i := by
  simp only [matchEnds, wsEnds, List.mem_map, List.mem_range]
  constructor
  · rintro ⟨k, hk, rfl⟩; omega
  · rintro ⟨h1, h2⟩
    exact ⟨i + wsCountFrom t i - j, by omega, by omega⟩

theorem mem_matchEnds_altOfList {t : List Char} {i j : Nat} (r : Regex)
    (rs : List Regex) :
    j ∈ matchEnds t (altOfList r rs) i ↔ ∃ q ∈ r :: rs, j ∈ matchEnds t q i := by
  induction rs generalizing r with
  | nil => simp [altOfList]
  | cons s rest ih =>
    simp only [altOfList, mem_matchEnds_alt, ih s]
    simp only [List.mem_cons]
    constructor
    · rintro (h | ⟨q, hq, hjq⟩)
      · exact ⟨r, Or.inl rfl, h⟩
      · exact ⟨q, Or.inr hq, hjq⟩
    · rintro ⟨q, (rfl | hq), hjq⟩
      · exact Or.inl hjq
      · exact Or.inr ⟨q, hq, hjq⟩

/-! ### Facts about literals, word characters and whitespace runs -/

theorem litAt_getElem {t : List Char} {s : String} {i : Nat}
    (h : litAt t s i = true) :
    ∀ m, m < s.data.length → t[i + m]? = s.data[m]? := by
  intro m hm
  have heq : (t.drop i).take s.data.length = s.data := by
    simpa [litAt] using h
  calc t[i + m]? = (t.drop i)[m]? := (List.getElem?_drop ..).symm
    _ = ((t.drop i).take s.data.length)[m]? :=
        (List.getElem?_take_of_lt hm).symm
    _ = s.data[m]? := by rw [heq]

theorem takeWhile_all_sat {p : Char → Bool} :
    ∀ (l : List Char) (m : Nat), m < (l.takeWhile p).length →
      ∃ c, l[m]? = some c ∧ p c = true := by
  intro l
  induction l with
  | nil => intro m hm; simp [List.takeWhile] at hm
  | cons a as ih =>
    intro m hm
    rw [List.takeWhile_cons] at hm
    by_cases hp : p a
    · simp only [hp, if_pos] at hm
      cases m with
      | zero => exact ⟨a, by simp, hp⟩
      | succ m =>
        obtain ⟨c, hc, hpc⟩ := ih m (by simpa using hm)
        exact ⟨c, by simpa using hc, hpc⟩
    · simp [hp] at hm

theorem spaceAt_of_lt_wsCount {t : List Char} {i m : Nat}
    (h1 : i ≤ m) (h2 : m < i + wsCountFrom t i) : spaceAt t m = true := by
  obtain ⟨c, hc, hpc⟩ :=
    takeWhile_all_sat (p := isSpaceChar) (t.drop i) (m - i) (by
      simp only [wsCountFrom] at h2 ⊢; omega)
  rw [List.getElem?_drop] at hc
  have : t[m]? = some c := by
    have : i + (m - i) = m := by omega
    rwa [this] at hc
  simp [spaceAt, this, hpc]

/-! ### The word-alternation pattern and its anchoring -/

theorem mem_matchEnds_wordAlt {t : List Char} {w : String} {ws : List String}
    {i j : Nat} :
    j ∈ matchEnds t (wordAltRegex w ws) i ↔
      wordBoundaryB t i = true ∧ wordBoundaryB t j = true ∧
      ∃ s ∈ w :: ws, litAt t s i = true ∧ j = i + s.data.length := by
  constructor
  · intro h
    rw [wordAltRegex, mem_matchEnds_seq] at h
    obtain ⟨k, hk, h2⟩ := h
    rw [mem_matchEnds_wb] at hk
    obtain ⟨rfl, hb⟩ := hk
    rw [mem_matchEnds_seq] at h2
    obtain ⟨m, hm, hj⟩ := h2
    rw [mem_matchEnds_group, mem_matchEnds_altOfList] at hm
    rw [mem_matchEnds_wb] at hj
    obtain ⟨rfl, hbj⟩ := hj
    obtain ⟨q, hq, hmq⟩ := hm
    refine ⟨hb, hbj, ?_⟩
    rcases List.mem_cons.mp hq with rfl | hq2
    · rw [mem_matchEnds_lit] at hmq
      exact ⟨w, List.mem_cons_self .., hmq⟩
    · obtain ⟨s, hs, rfl⟩ := List.mem_map.mp hq2
      rw [mem_matchEnds_lit] at hmq
      exact ⟨s, List.mem_cons_of_mem _ hs, hmq⟩
  · rintro ⟨hb, hbj, s, hs, hlit, rfl⟩
    rw [wordAltRegex, mem_matchEnds_seq]
    refine ⟨i, mem_matchEnds_wb.mpr ⟨rfl, hb⟩, ?_⟩
    rw [mem_matchEnds_seq]
    refine ⟨i + s.data.length, ?_, mem_matchEnds_wb.mpr ⟨rfl, hbj⟩⟩
    rw [mem_matchEnds_group, mem_matchEnds_altOfList]
    rcases List.mem_cons.mp hs with rfl | hs2
    · exact ⟨.lit s, List.mem_cons_self .., mem_matchEnds_lit.mpr ⟨hlit, rfl⟩⟩
    · exact ⟨.lit s, List.mem_cons_of_mem _ (List.mem_map_of_mem _ hs2),
        mem_matchEnds_lit.mpr ⟨hlit, rfl⟩⟩

theorem wordAlt_no_proper_substring {t : List Char} {w : String}
    {ws : List String} {i j : Nat}
    (hwords : ∀ s ∈ w :: ws, s.data ≠ [] ∧ ∀ c ∈ s.data, isWordChar c = true)
    (h : j ∈ matchEnds t (wordAltRegex w ws) i) :
    (∃ s ∈ w :: ws, litAt t s i = true ∧ j = i + s.data.length) ∧
      (i = 0 ∨ isWordAt t (i - 1) = false) ∧ isWordAt t j = false := by
  rw [mem_matchEnds_wordAlt] at h
  obtain ⟨hbi, hbj, s, hs, hlit, rfl⟩ := h
  obtain ⟨hne, hw⟩ := hwords s hs
  have hlen : 0 < s.data.length := List.length_pos.mpr hne
  have hWi : isWordAt t i = true := by
    have h0 : t[i + 0]? = s.data[0]? := litAt_getElem hlit 0 hlen
    rw [List.getElem?_eq_getElem hlen] at h0
    have hc : isWordChar (s.data[0]) = true := hw _ (List.getElem_mem hlen)
    simp only [Nat.add_zero] at h0
    simp [isWordAt, h0, hc]
  have hWlast : isWordAt t (i + s.data.length - 1) = true := by
    have hm : s.data.length - 1 < s.data.length := by omega
    have h0 : t[i + (s.data.length - 1)]? = s.data[s.data.length - 1]? :=
      litAt_getElem hlit (s.data.length - 1) hm
    rw [List.getElem?_eq_getElem hm] at h0
    have hc : isWordChar (s.data[s.data.length - 1]) = true :=
      hw _ (List.getElem_mem hm)
    have hidx : i + (s.data.length - 1) = i + s.data.length - 1 := by omega
    rw [hidx] at h0
    simp only [isWordAt, h0]
    exact hc
  refine ⟨⟨s, hs, hlit, rfl⟩, ?_, ?_⟩
  · by_cases hi : i = 0
    · exact Or.inl hi
    · right
      have hne0 : (i != 0) = true := by simpa using hi
      simp only [wordBoundaryB, hWi, hne0, Bool.true_and, bne_iff_ne] at hbi
      simpa using hbi
  · have hne0 : (i + s.data.length != 0) = true := by
      simp only [bne_iff_ne]; omega
    simp only [wordBoundaryB, hne0, hWlast, Bool.true_and, bne_iff_ne] at hbj
    simpa using hbj.symm

/-! ### Rendering the pattern abstract syntax back to its source strings -/

theorem render_altOfList (w : String) (ws : List String) :
    render (altOfList (.lit w) (ws.map Regex.lit)) = joinBar (w :: ws) := by
  induction ws generalizing w with
  | nil => rfl
  | cons s rest ih =>
    show render (.alt (.lit w) (altOfList (.lit s) (rest.map Regex.lit))) = _
    rw [render, render, ih s]
    rfl

theorem render_wordAltRegex (w : String) (ws : List String) :
    render (wordAltRegex w ws) = createWordPattern (w :: ws) := by
  have h1 : ("\\b" : String) ++ "(?:" = "\\b(?:" := rfl
  have h2 : (")" : String) ++ "\\b" = ")\\b" := rfl
  rw [wordAltRegex, render, render, render, render, render_altOfList,
    createWordPattern]
  simp only [String.append_assoc]
  rw [h2, ← String.append_assoc, h1]

theorem render_builtinRegex (w : String) (ws : List String) :
    render (builtinRegex w ws) =
      createWordPattern (w :: ws) ++ "(?=\\s*\\()" := by
  rw [builtinRegex, render, render_wordAltRegex]
  rfl

/-! ### Semantics of the builtins rule pattern -/

theorem builtin_match_characterization {t : List Char} {w : String}
    {ws : List String} {i j : Nat}
    (h : j ∈ matchEnds t (builtinRegex w ws) i) :
    (∃ s ∈ w :: ws, litAt t s i = true ∧ j = i + s.data.length) ∧
      ∃ k, j ≤ k ∧ (∀ m, j ≤ m → m < k → spaceAt t m = true) ∧
        t[k]? = some '(' := by
  rw [builtinRegex, mem_matchEnds_seq] at h
  obtain ⟨k0, hk0, hlook⟩ := h
  rw [mem_matchEnds_look] at hlook
  obtain ⟨rfl, hne⟩ := hlook
  refine ⟨(mem_matchEnds_wordAlt.mp hk0).2.2, ?_⟩
  obtain ⟨e, he⟩ := List.exists_mem_of_ne_nil _ hne
  rw [mem_matchEnds_seq] at he
  obtain ⟨m, hm, hchr⟩ := he
  rw [mem_matchEnds_wsStar] at hm
  rw [mem_matchEnds_chr] at hchr
  refine ⟨m, hm.1, ?_, ?_⟩
  · intro x hx1 hx2
    exact spaceAt_of_lt_wsCount hx1 (by omega)
  · have := hchr.1
    simpa using this

/-! ### Flattening: leaf concatenation and key irrelevance -/

mutual

theorem flattenArray_eq_flatten_leaves :
    ∀ n : Node, flattenArray n = (leaves n).flatten
  | .arr xs => by simp [flattenArray, leaves]
  | .obj fs => by
    rw [show flattenArray (.obj fs) = flattenFields fs from rfl]
    rw [show leaves (.obj fs) = leavesFields fs from rfl]
    exact flattenFields_eq_flatten_leavesFields fs

theorem flattenFields_eq_flatten_leavesFields :
    ∀ fs : List (String × Node), flattenFields fs = (leavesFields fs).flatten
  | [] => rfl
  | (k, v) :: rest => by
    rw [show flattenFields ((k, v) :: rest) = flattenArray v ++ flattenFields rest
        from rfl]
    rw [show leavesFields ((k, v) :: rest) = leaves v ++ leavesFields rest
        from rfl]
    rw [List.flatten_append, flattenArray_eq_flatten_leaves v,
      flattenFields_eq_flatten_leavesFields rest]

end

theorem flattenFields_eq_flatten_map :
    ∀ fs : List (String × Node),
      flattenFields fs = (fs.map (fun p => flattenArray p.2)).flatten
  | [] => rfl
  | (k, v) :: rest => by
    rw [show flattenFields ((k, v) :: rest) = flattenArray v ++ flattenFields rest
        from rfl]
    rw [flattenFields_eq_flatten_map rest]
    rfl

theorem flattenFields_key_rename (f : String → String) :
    ∀ fs : List (String × Node),
      flattenFields (fs.map (fun p => (f p.1, p.2))) = flattenFields fs
  | [] => rfl
  | (k, v) :: rest => by
    rw [show ((k, v) :: rest).map (fun p => (f p.1, p.2)) =
        (f k, v) :: rest.map (fun p => (f p.1, p.2)) from rfl]
    rw [show flattenFields ((f k, v) :: rest.map (fun p => (f p.1, p.2))) =
        flattenArray v ++ flattenFields (rest.map (fun p => (f p.1, p.2)))
        from rfl]
    rw [flattenFields_key_rename f rest]
    rfl

/-! ### joinBar agrees with the standard separator join -/

theorem joinBar_cons_cons (w s : String) (ws : List String) :
    joinBar (w :: s :: ws) = w ++ "|" ++ joinBar (s :: ws) := rfl

theorem joinBar_append_head (x a : String) :
    ∀ rest : List String,
      joinBar ((x ++ "|" ++ a) :: rest) = x ++ "|" ++ joinBar (a :: rest)
  | [] => rfl
  | r :: rest => by
    rw [joinBar_cons_cons, joinBar_cons_cons]
    simp only [String.append_assoc]

theorem intercalate_go_eq_joinBar :
    ∀ (as : List String) (acc : String),
      String.intercalate.go acc "|" as = joinBar (acc :: as)
  | [], acc => rfl
  | a :: rest, acc => by
    rw [show String.intercalate.go acc "|" (a :: rest) =
        String.intercalate.go (acc ++ "|" ++ a) "|" rest from rfl]
    rw [intercalate_go_eq_joinBar rest (acc ++ "|" ++ a)]
    exact joinBar_append_head acc a rest

theorem joinBar_eq_intercalate :
    ∀ l : List String, joinBar l = String.intercalate "|" l
  | [] => rfl
  | a :: as => (intercalate_go_eq_joinBar as a).symm

/-! ### Projections of the generated grammar -/

theorem makeGrammar_ok_repoLookup_builtins {tax : Taxonomy} {g : Grammar}
    (h : makeGrammar tax = .ok g) :
    repoLookup g "builtins" =
      some [.matchRule "support.function.builtin.food"
        (createWordPattern (tax.builtins.getD []) ++ "(?=\\s*\\()")] := by
  cases ht : flattenArrayJS tax.types with
  | error e => simp [makeGrammar, ht] at h
  | ok a =>
    cases ha : flattenArrayJS tax.actions with
    | error e => simp [makeGrammar, ht, ha] at h
    | ok b =>
      simp only [makeGrammar, ht, ha] at h
      cases h
      rfl

/-! ### Claim theorems -/

/-- C1: the claim says synthesis succeeds on the empty taxonomy and on
any taxonomy with all categories empty or missing, yielding only the
structural comment/string/function-fallback rules.  The code disagrees:
for the empty taxonomy, `flattenArray(tokens.types)` applies
`Object.values` to `undefined` and throws a `TypeError`; and even when the
categories are present but empty, the repository still contains the
keywords/types/builtins/actions rules (with degenerate patterns), not only
the structural ones. -/
theorem makeGrammar_empty_taxonomy_raises :
    makeGrammar { keywords := none, types := none, builtins := none
                  actions := none } =
      .error "TypeError: Cannot convert undefined or null to object" ∧
    (makeGrammar taxEmptyCats).map (fun g => g.repository.map Prod.fst) =
      .ok ["comments", "strings", "keywords", "types", "builtins",
           "actions", "functions", "variables"] :=
  ⟨rfl, rfl⟩

/-- C2 counterexample: for a taxonomy whose builtins category is empty, the
generated rule set still contains a builtins rule, and its `match` pattern
is the bare lookahead `(?=\s*\()` — contradicting the claim that no rule is
emitted for an empty category and that no rule with a bare-lookahead
pattern is ever produced. -/
theorem emptyBuiltins_rule_still_emitted_cex :
    (makeGrammar { keywords := none, types := some (.obj [])
                   builtins := some [], actions := some (.obj []) }).map
        (fun g => repoLookup g "builtins") =
      .ok (some [.matchRule "support.function.builtin.food" "(?=\\s*\\()"]) :=
  rfl

/-- C2 (amended): `createWordPattern []` (buildWordPattern on the empty name
sequence) returns the empty string, but the caller does not skip the
category: the builtins rule is still emitted with the empty word pattern
concatenated to the lookahead, giving the bare lookahead `(?=\s*\()`; and an
empty `match` pattern, as a regex, matches (the empty string) at every
position. -/
theorem createWordPattern_empty_degenerate_rule :
    createWordPattern [] = "" ∧
    (∀ (tax : Taxonomy) (g : Grammar), makeGrammar tax = .ok g →
      tax.builtins.getD [] = [] →
      repoLookup g "builtins" =
        some [.matchRule "support.function.builtin.food" "(?=\\s*\\()"]) ∧
    (∀ (t : List Char) (i : Nat), matchEnds t (.lit "") i = [i]) := by
  refine ⟨rfl, ?_, ?_⟩
  · intro tax g h hb
    have hx := makeGrammar_ok_repoLookup_builtins h
    rw [hb] at hx
    exact hx
  · intro t i
    simp [matchEnds, litAt]

/-- C2 witness: the amended statement instantiated at the concrete taxonomy
with all categories present but empty. -/
theorem createWordPattern_empty_degenerate_rule_witness :
    repoLookup grammarEmptyCats "builtins" =
      some [.matchRule "support.function.builtin.food" "(?=\\s*\\()"] :=
  createWordPattern_empty_degenerate_rule.2.1 taxEmptyCats grammarEmptyCats
    rfl rfl

/-- C3: for a non-empty list of word-character names, the generated pattern
is the word-boundary-anchored alternation (the rendered regex equals
`createWordPattern`), any match of it spans exactly one of the names with no
word character adjacent on either side (so no name matches as a proper
substring of a longer identifier), and on the text `mixTogether(` the
pattern for `["mix","mixTogether"]` has `[11]` as its only match ends from
position 0: it matches the single token `mixTogether`, never `mix`. -/
theorem wordPattern_word_boundary_anchoring :
    (∀ (w : String) (ws : List String),
      render (wordAltRegex w ws) = createWordPattern (w :: ws)) ∧
    (∀ (t : List Char) (w : String) (ws : List String) (i j : Nat),
      (∀ s ∈ w :: ws, s.data ≠ [] ∧ ∀ c ∈ s.data, isWordChar c = true) →
      j ∈ matchEnds t (wordAltRegex w ws) i →
      (∃ s ∈ w :: ws, litAt t s i = true ∧ j = i + s.data.length) ∧
        (i = 0 ∨ isWordAt t (i - 1) = false) ∧ isWordAt t j = false) ∧
    matchEnds "mixTogether(".data (wordAltRegex "mix" ["mixTogether"]) 0 =
      [11] := by
  refine ⟨render_wordAltRegex, ?_, by decide⟩
  intro t w ws i j hw h
  exact wordAlt_no_proper_substring hw h

/-- C3 witness: the anchoring statement instantiated on the concrete text
`mixTogether(` with names `["mix","mixTogether"]` at match `[0, 11)`. -/
theorem wordPattern_word_boundary_anchoring_witness :
    (∃ s ∈ ["mix", "mixTogether"],
        litAt "mixTogether(".data s 0 = true ∧ 11 = 0 + s.data.length) ∧
      (0 = 0 ∨ isWordAt "mixTogether(".data (0 - 1) = false) ∧
      isWordAt "mixTogether(".data 11 = false :=
  wordPattern_word_boundary_anchoring.2.1 "mixTogether(".data "mix"
    ["mixTogether"] 0 11 (by decide) (by decide)

/-- C4: flattening a mapping node concatenates the flattening of its values
in iteration order; equivalently the result is the concatenation of all leaf
string-arrays in traversal order (`leaves`), key names are discarded
(renaming every key leaves the result unchanged), and the spec's example
`flatten({a:[x], b:{c:[y,z]}}) = [x,y,z]` holds. -/
theorem flattenArray_concatenates_leaves :
    (∀ n : Node, flattenArray n = (leaves n).flatten) ∧
    (∀ fs : List (String × Node),
      flattenArray (.obj fs) = (fs.map (fun p => flattenArray p.2)).flatten) ∧
    (∀ (f : String → String) (fs : List (String × Node)),
      flattenArray (.obj (fs.map (fun p => (f p.1, p.2)))) =
        flattenArray (.obj fs)) ∧
    flattenArray (.obj [("a", .arr ["x"]), ("b", .obj [("c", .arr ["y", "z"])])]) =
      ["x", "y", "z"] := by
  refine ⟨flattenArray_eq_flatten_leaves, ?_, ?_, rfl⟩
  · intro fs
    exact flattenFields_eq_flatten_map fs
  · intro f fs
    exact flattenFields_key_rename f fs

/-- C5 counterexample: with builtins `["wait"]`, the generated builtin
pattern matches `wait` in the text `wait (` (match end 4), although the
character immediately after the name is a space, not `(` — so the rule does
not classify only names immediately followed by an opening parenthesis: the
lookahead `(?=\s*\()` tolerates whitespace before the parenthesis. -/
theorem builtin_whitespace_before_paren_cex :
    4 ∈ matchEnds "wait (".data (builtinRegex "wait" []) 0 ∧
      "wait (".data[4]? = some ' ' ∧ "wait (".data[4]? ≠ some '(' := by
  decide

/-- C5 (amended): the generated builtins rule's `match` is the rendered
`builtinRegex` (word pattern plus non-consuming lookahead `(?=\s*\()`), and
any match of that pattern spans exactly one builtin name — the match ends at
the name's end, consuming no parenthesis — and is followed, after zero or
more whitespace characters only, by an opening parenthesis; hence an
occurrence with no subsequent `(` (after optional whitespace) is never
classified as a builtin call. -/
theorem builtin_rule_call_lookahead :
    (∀ (tax : Taxonomy) (g : Grammar), makeGrammar tax = .ok g →
      ∀ (w : String) (ws : List String), tax.builtins.getD [] = w :: ws →
      repoLookup g "builtins" =
        some [.matchRule "support.function.builtin.food"
          (render (builtinRegex w ws))]) ∧
    (∀ (t : List Char) (w : String) (ws : List String) (i j : Nat),
      j ∈ matchEnds t (builtinRegex w ws) i →
      (∃ s ∈ w :: ws, litAt t s i = true ∧ j = i + s.data.length) ∧
        ∃ k, j ≤ k ∧ (∀ m, j ≤ m → m < k → spaceAt t m = true) ∧
          t[k]? = some '(') := by
  constructor
  · intro tax g h w ws hb
    have hx := makeGrammar_ok_repoLookup_builtins h
    rw [hb] at hx
    rw [render_builtinRegex]
    exact hx
  · intro t w ws i j h
    exact builtin_match_characterization h

/-- C5 witness: the amended statement instantiated at the taxonomy with
builtins `["wait"]` and at the concrete text `wait(`. -/
theorem builtin_rule_call_lookahead_witness :
    (repoLookup grammarWaitBuiltin "builtins" =
      some [.matchRule "support.function.builtin.food"
        (render (builtinRegex "wait" []))]) ∧
    ((∃ s ∈ ["wait"], litAt "wait(".data s 0 = true ∧ 4 = 0 + s.data.length) ∧
      ∃ k, 4 ≤ k ∧ (∀ m, 4 ≤ m → m < k → spaceAt "wait(".data m = true) ∧
        "wait(".data[k]? = some '(') :=
  ⟨builtin_rule_call_lookahead.1 taxWaitBuiltin grammarWaitBuiltin rfl
      "wait" [] rfl,
    builtin_rule_call_lookahead.2 "wait(".data "wait" [] 0 4 (by decide)⟩

/-- C6: whenever synthesis succeeds, the generated artifact's top-level
patterns list is exactly the fixed include sequence comments, strings,
keywords, types, builtins, actions, functions, variables, in that order,
for every taxonomy input. -/
theorem grammar_patterns_precedence_order :
    ∀ tax : Taxonomy,
      (makeGrammar tax).map Grammar.patterns =
        (makeGrammar tax).map (fun _ =>
          [GPattern.includeRef "#comments", .includeRef "#strings",
           .includeRef "#keywords", .includeRef "#types",
           .includeRef "#builtins", .includeRef "#actions",
           .includeRef "#functions", .includeRef "#variables"]) := by
  intro tax
  cases ht : flattenArrayJS tax.types with
  | error e =>
    simp only [makeGrammar, ht]
    rfl
  | ok a =>
    cases ha : flattenArrayJS tax.actions with
    | error e =>
      simp only [makeGrammar, ht, ha]
      rfl
    | ok b =>
      simp only [makeGrammar, ht, ha]
      rfl

/-- C7: flattening an already-flat sequence of strings returns it unchanged
(the base case of the recursion); mutation is impossible in this pure
embedding, as in the source, which returns the array itself. -/
theorem flattenArray_flat_identity :
    ∀ xs : List String, flattenArray (.arr xs) = xs :=
  fun _ => rfl

/-- C8: when a rebuild triggered by a `change` notification fails (the
taxonomy load or the synthesis returns an error), the watch callback ends in
the logged-error outcome — the loop keeps running, it cannot crash — while
the same failing build in one-shot mode is fatal with a non-zero exit. -/
theorem watch_rebuild_failure_logged_oneshot_fatal :
    ∀ (load : Except String Taxonomy) (e : String),
      mainResult load = .error e →
      watchChangeStep load "change" = .loggedError e ∧
        oneShotRun load = .exitNonZero e := by
  intro load e h
  constructor
  · simp [watchChangeStep, h]
  · simp [oneShotRun, h]

/-- C8 witness: instantiated at a load result whose synthesis fails (the
empty taxonomy, whose flattening throws). -/
theorem watch_rebuild_failure_logged_oneshot_fatal_witness :
    watchChangeStep
        (.ok { keywords := none, types := none, builtins := none
               actions := none }) "change" =
      .loggedError "TypeError: Cannot convert undefined or null to object" ∧
    oneShotRun
        (.ok { keywords := none, types := none, builtins := none
               actions := none }) =
      .exitNonZero "TypeError: Cannot convert undefined or null to object" :=
  watch_rebuild_failure_logged_oneshot_fatal _ _ rfl

/-- C9: in watch mode the initial build runs outside any error handler, so a
failure before the first change event crashes the process at startup; the
same failure inside a change-triggered rebuild is caught and logged. -/
theorem watch_initial_build_unprotected :
    ∀ (load : Except String Taxonomy) (e : String),
      mainResult load = .error e →
      watchStartup load = .crashed e ∧
        watchChangeStep load "change" = .loggedError e := by
  intro load e h
  constructor
  · simp [watchStartup, h]
  · simp [watchChangeStep, h]

/-- C9 witness: instantiated at a loader failure (an unparsable taxonomy
document). -/
theorem watch_initial_build_unprotected_witness :
    watchStartup (.error "SyntaxError: Unexpected end of JSON input") =
      .crashed "SyntaxError: Unexpected end of JSON input" ∧
    watchChangeStep (.error "SyntaxError: Unexpected end of JSON input")
        "change" =
      .loggedError "SyntaxError: Unexpected end of JSON input" :=
  watch_initial_build_unprotected _ _ rfl

/-- C10: for a non-empty list of names, `createWordPattern` returns exactly
`\b(?:` ++ the names joined by `|` ++ `)\b`, inserting each name verbatim
with no regex-metacharacter escaping: the single name `a|b` yields the same
pattern string as the two names `a`, `b`, i.e. the string that parses as the
alternation of `a` and `b` — which then matches the bare text `a` (in `a,`)
although the name `a|b` never occurs there. -/
theorem createWordPattern_verbatim_no_escaping :
    (∀ (w : String) (ws : List String),
      createWordPattern (w :: ws) =
        "\\b(?:" ++ String.intercalate "|" (w :: ws) ++ ")\\b") ∧
    createWordPattern ["a|b"] = createWordPattern ["a", "b"] ∧
    createWordPattern ["a|b"] = render (wordAltRegex "a" ["b"]) ∧
    matchEnds "a,".data (wordAltRegex "a" ["b"]) 0 = [1] := by
  refine ⟨?_, by decide, ?_, by decide⟩
  · intro w ws
    rw [createWordPattern, joinBar_eq_intercalate]
  · rw [render_wordAltRegex]
    decide

end Cookbook
